import Mathlib

/-!
Verification of the Tounfite Souk single-file Flask marketplace
(src/project/local_marketplace_flask_app.py) against its natural-language
specification.  The Python request handlers are shallowly embedded as pure
Lean functions over an explicit application state (the SQLite database plus
the session identity); machine floats used for prices are modelled as
rationals (every price reachable in the model is a finite decimal literal),
`datetime.utcnow()` is modelled as an explicit natural-number clock passed
to every handler that reads it, and the salted werkzeug password hash is
modelled as an abstract pair of functions (a hash generator passed to
`register` and a verifier passed to `login`), since its internals live in
the werkzeug library, not in this repository.
-/

namespace TounfiteSouk

/-- Python truthiness of an optional form string: `None` and the empty
string are falsy, everything else is truthy (models `if not x` checks on
`request.form.get(...)` results). -/
def truthy : Option String → Bool
  | none => false
  | some s => !(s == "")

/-- Python `x or default` for an optional form string: the default is used
exactly when the field is missing (`None`) or empty (both falsy).  Models
`request.form.get('role') or 'buyer'` and `request.form.get('price') or 0`. -/
def orDefault (o : Option String) (d : String) : String :=
  match o with
  | none => d
  | some s => if s = "" then d else s

/-- Python `str.strip()` restricted to the whitespace characters relevant
here (the model covers ASCII whitespace; the app only ever strips email
and search strings). -/
def pyStrip (s : String) : String :=
  String.mk (((s.toList.dropWhile Char.isWhitespace).reverse.dropWhile
    Char.isWhitespace).reverse)

/-- Python `str.lower()` (ASCII range, which is what `Char.toLower`
implements; the app lowercases submitted email addresses). -/
def pyLower (s : String) : String :=
  String.mk (s.toList.map Char.toLower)

/-- Email normalisation as performed by the `register` and `login` routes:
`request.form.get('email','').strip().lower()`. -/
def normEmail (e : String) : String := pyLower (pyStrip e)

/-- A row of the `user` table. -/
structure User where
  id : Nat
  email : String
  password_hash : String
  role : String
  name : Option String
  phone : Option String
  city : Option String
  verified : Bool
  created_at : Nat
deriving Repr, DecidableEq

/-- A row of the `item` table.  `price` is a Python float in the source;
it is modelled as a rational. -/
structure Item where
  id : Nat
  title : String
  price : Rat
  description : Option String
  city : Option String
  image_filename : Option String
  created_at : Nat
  seller_id : Nat
deriving Repr, DecidableEq

/-- A row of the `message` table. -/
structure Msg where
  id : Nat
  sender_id : Nat
  receiver_id : Nat
  content : String
  created_at : Nat
deriving Repr, DecidableEq

/-- The whole persistent store: the three tables plus the next value of
each auto-incrementing integer primary key. -/
structure State where
  users : List User
  items : List Item
  msgs : List Msg
  nextUserId : Nat
  nextItemId : Nat
  nextMsgId : Nat
deriving Repr, DecidableEq

/-- `User.query.filter_by(email=email).first()`: the first stored user
whose email column equals the given string (SQLite `=` on TEXT is exact,
case-sensitive comparison). -/
def findByEmail (s : State) (e : String) : Option User :=
  s.users.find? (fun u => u.email == e)

/-- The fields of a POST to `/register`.  `request.form.get('email','')`
defaults to the empty string, so `email` is a plain string; the other
fields are `None` when absent. -/
structure RegForm where
  email : String
  password : Option String
  role : Option String
  name : Option String
  phone : Option String
  city : Option String
deriving Repr, DecidableEq

/-- Outcomes of the `register` route that end in a flash-and-redirect
without creating a user. -/
inductive RegErr
  | invalidInput
  | emailTaken
deriving Repr, DecidableEq

/-- The user record built by `register` on the success path:
`User(email=email, role=role, name=name, phone=phone, city=city,
verified=False)` followed by `user.set_password(password)`, with `email`
already normalised and `role = request.form.get('role') or 'buyer'`.
`gen` stands for `werkzeug.security.generate_password_hash`. -/
def mkUser (uid now : Nat) (gen : String → String) (f : RegForm) : User :=
  { id := uid
    email := normEmail f.email
    password_hash := gen (f.password.getD "")
    role := orDefault f.role "buyer"
    name := f.name
    phone := f.phone
    city := f.city
    verified := false
    created_at := now }

/-- The POST branch of the `register` route.  Checks run in source order:
missing email or password first, then the duplicate-email lookup; only
then is the row inserted and committed.  On success the route calls
`login_user(user)`, so the returned `User` is also the new session
identity. -/
def register (now : Nat) (gen : String → String) (s : State) (f : RegForm) :
    Except RegErr (State × User) :=
  if normEmail f.email = "" ∨ truthy f.password = false then
    .error .invalidInput
  else if (findByEmail s (normEmail f.email)).isSome then
    .error .emailTaken
  else
    .ok ({ s with
            users := s.users ++ [mkUser s.nextUserId now gen f],
            nextUserId := s.nextUserId + 1 },
         mkUser s.nextUserId now gen f)

/-- The single failure outcome of the `login` route: the same
`flash('Invalid credentials')` redirect is issued both when no user has
the given email and when the password hash check fails. -/
inductive LoginErr
  | invalidCredentials
deriving Repr, DecidableEq

/-- The POST branch of the `login` route.  `check` stands for
`werkzeug.security.check_password_hash` (first argument the stored hash,
second the submitted password); on success the route calls
`login_user(user)`, so the returned `User` is the session identity. -/
def login (s : State) (check : String → String → Bool)
    (email password : String) : Except LoginErr User :=
  match findByEmail s (normEmail email) with
  | none => .error .invalidCredentials
  | some u =>
      if check u.password_hash password then .ok u
      else .error .invalidCredentials

/-- The email-uniqueness invariant of the `user` table (the `unique=True`
column constraint): no two stored users share an email. -/
def EmailsUnique (s : State) : Prop := (s.users.map User.email).Nodup

end TounfiteSouk

namespace TounfiteSouk

/-- C1: registering a second time with the same normalised email fails
with EmailTaken and leaves the first user record in place, unchanged. -/
theorem claim_C1 (now now2 : Nat) (gen gen2 : String → String)
    (s s1 : State) (f f2 : RegForm) (u : User)
    (h : register now gen s f = .ok (s1, u))
    (he : normEmail f2.email = normEmail f.email)
    (hp : truthy f2.password = true) :
    register now2 gen2 s1 f2 = .error .emailTaken ∧
      findByEmail s1 (normEmail f.email) = some u ∧ u ∈ s1.users := by
  unfold register at h
  by_cases h1 : normEmail f.email = "" ∨ truthy f.password = false
  · simp [h1] at h
  · rw [if_neg h1] at h
    by_cases h2 : (findByEmail s (normEmail f.email)).isSome
    · simp [h2] at h
    · rw [if_neg h2] at h
      simp only [Except.ok.injEq, Prod.mk.injEq] at h
      obtain ⟨hs1, hu⟩ := h
      have hnone : findByEmail s (normEmail f.email) = none := by
        cases hfe : findByEmail s (normEmail f.email) with
        | none => rfl
        | some v => rw [hfe] at h2; simp at h2
      have hfind : findByEmail s1 (normEmail f.email) = some u := by
        rw [← hs1]
        unfold findByEmail at hnone ⊢
        simp only [List.find?_append, hnone, Option.none_or]
        simp [← hu, mkUser]
      refine ⟨?_, hfind, List.mem_of_find?_eq_some hfind⟩
      unfold register
      have hne : ¬(normEmail f2.email = "" ∨ truthy f2.password = false) := by
        rw [he, hp]
        push_neg
        constructor
        · intro hemp
          exact h1 (Or.inl hemp)
        · simp
      rw [if_neg hne, he]
      rw [hfind]
      simp

/-- Witness for C1 at a concrete double registration. -/
theorem claim_C1_witness :
    register 5 (fun p => p ++ "#h")
        { users := [], items := [], msgs := [],
          nextUserId := 1, nextItemId := 1, nextMsgId := 1 }
        { email := " Alice@Example.com ", password := some "pw1",
          role := some "seller", name := none, phone := none, city := none }
      = .ok
        ({ users := [{ id := 1, email := "alice@example.com",
                       password_hash := "pw1#h", role := "seller",
                       name := none, phone := none, city := none,
                       verified := false, created_at := 5 }],
           items := [], msgs := [],
           nextUserId := 2, nextItemId := 1, nextMsgId := 1 },
         { id := 1, email := "alice@example.com", password_hash := "pw1#h",
           role := "seller", name := none, phone := none, city := none,
           verified := false, created_at := 5 }) ∧
    register 9 (fun p => p ++ "#g")
        { users := [{ id := 1, email := "alice@example.com",
                      password_hash := "pw1#h", role := "seller",
                      name := none, phone := none, city := none,
                      verified := false, created_at := 5 }],
          items := [], msgs := [],
          nextUserId := 2, nextItemId := 1, nextMsgId := 1 }
        { email := "ALICE@example.COM", password := some "other",
          role := none, name := none, phone := none, city := none }
      = .error .emailTaken := by
  have h1 : register 5 (fun p => p ++ "#h")
      { users := [], items := [], msgs := [],
        nextUserId := 1, nextItemId := 1, nextMsgId := 1 }
      { email := " Alice@Example.com ", password := some "pw1",
        role := some "seller", name := none, phone := none, city := none }
    = .ok
      ({ users := [{ id := 1, email := "alice@example.com",
                     password_hash := "pw1#h", role := "seller",
                     name := none, phone := none, city := none,
                     verified := false, created_at := 5 }],
         items := [], msgs := [],
         nextUserId := 2, nextItemId := 1, nextMsgId := 1 },
       { id := 1, email := "alice@example.com", password_hash := "pw1#h",
         role := "seller", name := none, phone := none, city := none,
         verified := false, created_at := 5 }) := by rfl
  refine ⟨h1, ?_⟩
  have := claim_C1 5 9 (fun p => p ++ "#h") (fun p => p ++ "#g")
    _ _ _ { email := "ALICE@example.COM", password := some "other",
            role := none, name := none, phone := none, city := none } _
    h1 (by decide) (by decide)
  exact this.1

/-- C2: login succeeds exactly when a stored user has the normalised email
and the hash verifier accepts the submitted password; in every other case
the outcome is the single uniform InvalidCredentials failure, with no
distinction between unknown email and wrong password. -/
theorem claim_C2 (s : State) (check : String → String → Bool)
    (e p : String) (hu : EmailsUnique s) :
    ((∃ u, login s check e p = .ok u) ↔
      ∃ u ∈ s.users, u.email = normEmail e ∧ check u.password_hash p = true)
    ∧ (∀ u, login s check e p = .ok u →
        u ∈ s.users ∧ u.email = normEmail e ∧ check u.password_hash p = true)
    ∧ ((¬ ∃ u ∈ s.users, u.email = normEmail e ∧ check u.password_hash p = true) →
        login s check e p = .error .invalidCredentials) := by
  cases hfind : findByEmail s (normEmail e) with
  | none =>
      have hlog : login s check e p = .error .invalidCredentials := by
        simp [login, hfind]
      have hno : ¬ ∃ u ∈ s.users,
          u.email = normEmail e ∧ check u.password_hash p = true := by
        rintro ⟨v, hv, hve, _⟩
        unfold findByEmail at hfind
        rw [List.find?_eq_none] at hfind
        exact hfind v hv (by simp [hve])
      refine ⟨⟨?_, fun hex => absurd hex hno⟩, ?_, fun _ => hlog⟩
      · rintro ⟨u, hok⟩
        rw [hlog] at hok
        simp at hok
      · intro u hok
        rw [hlog] at hok
        simp at hok
  | some u0 =>
      have hmem : u0 ∈ s.users :=
        List.mem_of_find?_eq_some hfind
      have hemail : u0.email = normEmail e := by
        have := List.find?_some hfind
        simpa using this
      by_cases hc : check u0.password_hash p = true
      · have hlog : login s check e p = .ok u0 := by
          simp [login, hfind, hc]
        have hex : ∃ u ∈ s.users,
            u.email = normEmail e ∧ check u.password_hash p = true :=
          ⟨u0, hmem, hemail, hc⟩
        refine ⟨⟨fun _ => hex, fun _ => ⟨u0, hlog⟩⟩, ?_, fun hn => absurd hex hn⟩
        intro u hok
        rw [hlog] at hok
        injection hok with huu
        rw [← huu]
        exact ⟨hmem, hemail, hc⟩
      · have hlog : login s check e p = .error .invalidCredentials := by
          simp [login, hfind, hc]
        have hno : ¬ ∃ u ∈ s.users,
            u.email = normEmail e ∧ check u.password_hash p = true := by
          rintro ⟨v, hv, hve, hvc⟩
          have hveq : v = u0 :=
            List.inj_on_of_nodup_map hu hv hmem (by rw [hve, hemail])
          rw [hveq] at hvc
          exact hc hvc
        refine ⟨⟨?_, fun hex => absurd hex hno⟩, ?_, fun _ => hlog⟩
        · rintro ⟨u, hok⟩
          rw [hlog] at hok
          simp at hok
        · intro u hok
          rw [hlog] at hok
          simp at hok

/-- Witness for C2 at a concrete one-user store. -/
theorem claim_C2_witness :
    (∃ u, login
        { users := [{ id := 1, email := "bob@x.io", password_hash := "pw",
                      role := "buyer", name := none, phone := none,
                      city := none, verified := false, created_at := 0 }],
          items := [], msgs := [],
          nextUserId := 2, nextItemId := 1, nextMsgId := 1 }
        (fun h q => h == q) "Bob@X.io" "pw" = .ok u) ↔
      ∃ u ∈ (State.users
        { users := [{ id := 1, email := "bob@x.io", password_hash := "pw",
                      role := "buyer", name := none, phone := none,
                      city := none, verified := false, created_at := 0 }],
          items := [], msgs := [],
          nextUserId := 2, nextItemId := 1, nextMsgId := 1 }),
        u.email = normEmail "Bob@X.io" ∧
          ((fun h q => h == q) u.password_hash "pw") = true := by
  have h := claim_C2
    { users := [{ id := 1, email := "bob@x.io", password_hash := "pw",
                  role := "buyer", name := none, phone := none,
                  city := none, verified := false, created_at := 0 }],
      items := [], msgs := [],
      nextUserId := 2, nextItemId := 1, nextMsgId := 1 }
    (fun h q => h == q) "Bob@X.io" "pw" (by unfold EmailsUnique; decide)
  exact h.1

/-- C8 counterexample: a forged registration with role "admin" is stored
with role "admin" verbatim, so the claim that every created user has role
in the set of seller and buyer is false at this input. -/
theorem claim_C8_counterexample :
    (register 0 (fun p => p)
        { users := [], items := [], msgs := [],
          nextUserId := 1, nextItemId := 1, nextMsgId := 1 }
        { email := "eve@x.io", password := some "pw",
          role := some "admin", name := none, phone := none,
          city := none }).map (fun r => r.2.role)
      = .ok "admin" ∧ "admin" ≠ "buyer" ∧ "admin" ≠ "seller" :=
  ⟨rfl, by decide, by decide⟩

/-- C8 amended: the stored role defaults to "buyer" exactly when the
submitted role field is absent or empty; any other submitted string,
recognized or not, is stored verbatim. -/
theorem claim_C8_amended (now : Nat) (gen : String → String)
    (s s1 : State) (f : RegForm) (u : User)
    (h : register now gen s f = .ok (s1, u)) :
    ((f.role = none ∨ f.role = some "") → u.role = "buyer") ∧
    (∀ r, f.role = some r → r ≠ "" → u.role = r) := by
  unfold register at h
  by_cases h1 : normEmail f.email = "" ∨ truthy f.password = false
  · simp [h1] at h
  · rw [if_neg h1] at h
    by_cases h2 : (findByEmail s (normEmail f.email)).isSome
    · simp [h2] at h
    · rw [if_neg h2] at h
      simp only [Except.ok.injEq, Prod.mk.injEq] at h
      have hrole : u.role = orDefault f.role "buyer" := by
        rw [← h.2, mkUser]
      constructor
      · rintro (hr | hr) <;> simp [hrole, orDefault, hr]
      · intro r hr hne
        simp [hrole, orDefault, hr, hne]

/-- Witness for C8 amended: a concrete registration with an empty role
field yields role "buyer". -/
theorem claim_C8_amended_witness :
    ∃ s1 u, register 0 (fun p => p)
        { users := [], items := [], msgs := [],
          nextUserId := 1, nextItemId := 1, nextMsgId := 1 }
        { email := "carol@x.io", password := some "pw",
          role := some "", name := none, phone := none, city := none }
      = .ok (s1, u) ∧ u.role = "buyer" := by
  refine ⟨_, _, rfl, ?_⟩
  have h := claim_C8_amended 0 (fun p => p)
    { users := [], items := [], msgs := [],
      nextUserId := 1, nextItemId := 1, nextMsgId := 1 } _
    { email := "carol@x.io", password := some "pw",
      role := some "", name := none, phone := none, city := none } _ rfl
  exact h.1 (Or.inr rfl)

end TounfiteSouk

namespace TounfiteSouk

/-- True of ASCII decimal digit characters. -/
def isDigitChar (c : Char) : Bool := 48 ≤ c.toNat && c.toNat ≤ 57

/-- The digit character for `n % 10`. -/
def digitChar (n : Nat) : Char := Char.ofNat (48 + n % 10)

/-- Decimal rendering worker: the first argument is fuel, always at least
the number being rendered plus one, so it never runs out. -/
def natDigitsF : Nat → Nat → List Char
  | 0, _ => []
  | f + 1, n =>
      if n < 10 then [digitChar n]
      else natDigitsF f (n / 10) ++ [digitChar n]

/-- Decimal rendering of a natural number (models Python `str(int)` and
number formatting: most significant digit first, no sign, no padding). -/
def natDigits (n : Nat) : List Char := natDigitsF (n + 1) n

/-- The rendering does not depend on the fuel once it is sufficient. -/
theorem natDigitsF_congr : ∀ (f1 f2 n : Nat), n < f1 → n < f2 →
    natDigitsF f1 n = natDigitsF f2 n := by
  intro f1
  induction f1 with
  | zero => intro f2 n h1; omega
  | succ f1 ih =>
      intro f2 n h1 h2
      cases f2 with
      | zero => omega
      | succ f2 =>
          show (if n < 10 then [digitChar n]
              else natDigitsF f1 (n / 10) ++ [digitChar n])
            = (if n < 10 then [digitChar n]
              else natDigitsF f2 (n / 10) ++ [digitChar n])
          by_cases h10 : n < 10
          · rw [if_pos h10, if_pos h10]
          · rw [if_neg h10, if_neg h10, ih f2 (n / 10) (by omega) (by omega)]

/-- The defining recurrence of the decimal rendering. -/
theorem natDigits_eq (n : Nat) :
    natDigits n = if n < 10 then [digitChar n]
      else natDigits (n / 10) ++ [digitChar n] := by
  show natDigitsF (n + 1) n = _
  rw [show natDigitsF (n + 1) n = (if n < 10 then [digitChar n]
    else natDigitsF n (n / 10) ++ [digitChar n]) from rfl]
  by_cases h10 : n < 10
  · rw [if_pos h10, if_pos h10]
  · rw [if_neg h10, if_neg h10,
      natDigitsF_congr n (n / 10 + 1) (n / 10) (by omega) (by omega)]
    rfl

/-- Numeric value of a digit string, most significant digit first. -/
def digitsVal (l : List Char) : Nat :=
  l.foldl (fun a c => 10 * a + (c.toNat - 48)) 0

/-- True iff every character is an ASCII decimal digit. -/
def allDigits (l : List Char) : Bool := l.all isDigitChar

/-- Mantissa of a Python float literal: `digits`, `digits.digits`,
`digits.` or `.digits` (at least one digit overall). -/
def parseMantissa (l : List Char) : Option Rat :=
  let ip := l.takeWhile isDigitChar
  match l.dropWhile isDigitChar with
  | [] => if ip = [] then none else some (digitsVal ip)
  | '.' :: fp =>
      if allDigits fp then
        if ip = [] ∧ fp = [] then none
        else some ((digitsVal ip : Rat) + (digitsVal fp : Rat) / ((10 : Rat) ^ fp.length))
      else none
  | _ => none

/-- Exponent part of a Python float literal (after the `e`), as the power
of ten it denotes. -/
def parseExp10 (l : List Char) : Option Rat :=
  match l with
  | '-' :: d => if d ≠ [] ∧ allDigits d then some (1 / ((10 : Rat) ^ digitsVal d)) else none
  | '+' :: d => if d ≠ [] ∧ allDigits d then some ((10 : Rat) ^ digitsVal d) else none
  | d => if d ≠ [] ∧ allDigits d then some ((10 : Rat) ^ digitsVal d) else none

/-- Mantissa with optional exponent. -/
def parseFloatBody (m : List Char) : Option Rat :=
  let mant := m.takeWhile (fun c => !(c == 'e' || c == 'E'))
  match m.dropWhile (fun c => !(c == 'e' || c == 'E')) with
  | [] => parseMantissa mant
  | _ :: ex =>
      match parseMantissa mant, parseExp10 ex with
      | some q, some e => some (q * e)
      | _, _ => none

/-- Python `float(s)` on a string: strips surrounding whitespace, allows an
optional sign, then a decimal literal with optional fraction and exponent;
anything else raises ValueError, modelled as `none`.  (The value is exact
here, as a rational; the special spellings inf and nan, digit-group
underscores and non-ASCII digits are outside the model as no claim touches
them.) -/
def pyFloat (s : String) : Option Rat :=
  match ((s.toList.dropWhile Char.isWhitespace).reverse.dropWhile
      Char.isWhitespace).reverse with
  | '-' :: rest => (parseFloatBody rest).map (fun q => -q)
  | '+' :: rest => parseFloatBody rest
  | l => parseFloatBody l

/-- The price computation of `add_item`:
`price = request.form.get('price') or 0` followed by `float(price)`.
An absent or empty field falls back to the integer 0; any other string is
parsed by `float`, whose ValueError propagates as an HTTP 500. -/
def parsePrice (o : Option String) : Option Rat :=
  match o with
  | none => some 0
  | some s => if s = "" then some 0 else pyFloat s

/-- `ALLOWED_EXTENSIONS = {'png', 'jpg', 'jpeg', 'gif'}`. -/
def ALLOWED_EXTENSIONS : List String := ["png", "jpg", "jpeg", "gif"]

/-- `filename.rsplit('.', 1)[1]`: the characters after the last dot (for a
filename known to contain a dot). -/
def rsplitExt (l : List Char) : List Char :=
  (l.reverse.takeWhile (fun c => !(c == '.'))).reverse

/-- `allowed_file` from the source: the name contains a dot and the piece
after the final dot, lowercased, is one of the four allowed extensions. -/
def allowed_file (filename : String) : Bool :=
  filename.toList.contains '.' &&
    ALLOWED_EXTENSIONS.contains (String.mk ((rsplitExt filename.toList).map Char.toLower))

/-- Python `str.isspace` characters in the ASCII range, the ones
`str.split()` separates on. -/
def isSpaceChar (c : Char) : Bool :=
  c.toNat == 32 || c.toNat == 9 || c.toNat == 10 || c.toNat == 13 ||
    c.toNat == 11 || c.toNat == 12

/-- The character class kept by werkzeug `secure_filename`:
`[A-Za-z0-9_.-]`. -/
def keepChar (c : Char) : Bool :=
  (65 ≤ c.toNat && c.toNat ≤ 90) || (97 ≤ c.toNat && c.toNat ≤ 122) ||
    (48 ≤ c.toNat && c.toNat ≤ 57) || c.toNat == 95 || c.toNat == 46 ||
    c.toNat == 45

/-- The characters stripped from both ends by `.strip("._")`. -/
def isDU (c : Char) : Bool := c.toNat == 46 || c.toNat == 95

/-- A dropped-prefix list is no longer than the original. -/
theorem length_dropWhile_le (p : Char → Bool) (l : List Char) :
    (l.dropWhile p).length ≤ l.length :=
  List.Sublist.length_le (List.dropWhile_sublist p)

/-- Python `s.split()`: maximal runs of non-whitespace characters. -/
def words (l : List Char) : List (List Char) :=
  match l with
  | [] => []
  | c :: cs =>
      if isSpaceChar c then words cs
      else (c :: cs.takeWhile (fun d => !isSpaceChar d)) ::
        words (cs.dropWhile (fun d => !isSpaceChar d))
termination_by l.length
decreasing_by
all_goals simp only [List.length_cons]
all_goals first
| omega
| exact Nat.lt_succ_of_le (length_dropWhile_le _ _)

/-- Underscore-join of a word list (Python `"_".join(...)`). -/
def joinUS : List (List Char) → List Char
  | [] => []
  | [w] => w
  | w :: ws => w ++ '_' :: joinUS ws

/-- Python `.strip("._")`: removes leading and trailing dots and
underscores. -/
def stripDotUS (l : List Char) : List Char :=
  ((l.dropWhile isDU).reverse.dropWhile isDU).reverse

/-- The werkzeug `secure_filename` pipeline before the final strip: keep
ASCII, turn the path separator into a space, collapse whitespace runs to
single underscores, drop characters outside `[A-Za-z0-9_.-]`. -/
def presecure (filename : String) : List Char :=
  (joinUS (words ((filename.toList.filter (fun c => c.toNat < 128)).map
    (fun c => if c == '/' then ' ' else c)))).filter keepChar

/-- Modelled from the spec: `werkzeug.utils.secure_filename` is library
code outside this repository.  Following its documented behaviour on a
POSIX host for ASCII input: non-ASCII characters are dropped (the model
omits the NFKD step, the identity on ASCII), the path separator becomes a
space, whitespace runs collapse to single underscores, characters outside
`[A-Za-z0-9_.-]` are removed, and leading or trailing dots and underscores
are stripped. -/
def secure_filename (filename : String) : String :=
  String.mk (stripDotUS (presecure filename))

/-- The 14-character second-resolution timestamp
`datetime.utcnow().strftime('%Y%m%d%H%M%S')`, modelled as the zero-padded
decimal rendering of the model clock: what matters to the claims is that
it is exactly 14 digit characters wide. -/
def fmt14 (now : Nat) : List Char :=
  List.replicate (14 - (natDigits now).length) '0' ++ natDigits now

/-- The stored upload name `f"{current_user.id}_{timestamp}_{fname}"`
where `fname = secure_filename(image.filename)`. -/
def storedName (uid now : Nat) (orig : String) : String :=
  String.mk (natDigits uid ++ '_' :: fmt14 now ++ '_' :: (secure_filename orig).toList)

/-- Failure outcomes of `add_item`: the role gate `abort(403)`, and the
unhandled exceptions (float ValueError on a bad price, IntegrityError on a
missing title) that surface as HTTP 500. -/
inductive AddErr
  | forbidden
  | serverError
deriving Repr, DecidableEq

/-- The fields of a POST to `/add_item`; `image` is the client-supplied
filename of the uploaded file part, `none` when the part is absent, and
the empty string when no file was chosen. -/
structure ItemForm where
  title : Option String
  price : Option String
  description : Option String
  city : Option String
  image : Option String
deriving Repr, DecidableEq

/-- The image-reference computation inside `add_item`: a stored name is
produced iff a file part with a nonempty client filename passed
`allowed_file`; otherwise the item is created with no image reference. -/
def imageName (now : Nat) (caller : User) (f : ItemForm) : Option String :=
  match f.image with
  | none => none
  | some ofn =>
      if ofn ≠ "" ∧ allowed_file ofn = true then some (storedName caller.id now ofn)
      else none

/-- The item row built on the success path of `add_item`. -/
def mkItem (iid now : Nat) (caller : User) (f : ItemForm) (title : String)
    (pr : Rat) : Item :=
  { id := iid
    title := title
    price := pr
    description := f.description
    city := f.city
    image_filename := imageName now caller f
    created_at := now
    seller_id := caller.id }

/-- The `add_item` route: `abort(403)` unless the session user has role
"seller"; then the POST branch parses the price (ValueError on a bad
string is an unhandled 500), computes the optional stored image name, and
inserts the item with `seller=current_user` (a missing title violates the
NOT NULL column constraint at commit, also a 500). -/
def add_item (now : Nat) (s : State) (caller : User) (f : ItemForm) :
    Except AddErr (State × Item) :=
  if caller.role ≠ "seller" then .error .forbidden
  else
    match parsePrice f.price with
    | none => .error .serverError
    | some pr =>
        match f.title with
        | none => .error .serverError
        | some title =>
            .ok ({ s with
                    items := s.items ++ [mkItem s.nextItemId now caller f title pr],
                    nextItemId := s.nextItemId + 1 },
                 mkItem s.nextItemId now caller f title pr)

end TounfiteSouk

namespace TounfiteSouk

/-- C3: item creation by a non-seller fails with Forbidden (and no item is
inserted: the error leaves the store untouched); creation by a seller with
a well-formed POST succeeds and the created item references the caller as
its seller. -/
theorem claim_C3 (now : Nat) (s : State) (caller : User) (f : ItemForm) :
    (caller.role ≠ "seller" → add_item now s caller f = .error .forbidden)
    ∧ (∀ s1 it, add_item now s caller f = .ok (s1, it) →
        caller.role = "seller" ∧ it.seller_id = caller.id ∧
          s1.items = s.items ++ [it])
    ∧ (caller.role = "seller" → ∀ t, f.title = some t →
        ∀ pr, parsePrice f.price = some pr →
        ∃ s1 it, add_item now s caller f = .ok (s1, it) ∧
          it.seller_id = caller.id ∧ s1.items = s.items ++ [it] ∧
          it.price = pr ∧ it.title = t) := by
  refine ⟨fun hr => by simp [add_item, hr], ?_, ?_⟩
  · intro s1 it h
    unfold add_item at h
    split at h
    · exact absurd h (by simp)
    next hr =>
      push_neg at hr
      split at h
      · exact absurd h (by simp)
      · split at h
        · exact absurd h (by simp)
        · simp only [Except.ok.injEq, Prod.mk.injEq] at h
          obtain ⟨hs1, hit⟩ := h
          refine ⟨hr, ?_, ?_⟩
          · rw [← hit]
            rfl
          · rw [← hs1, ← hit]
  · intro hrole t ht pr hp
    have hok : add_item now s caller f =
        .ok ({ s with
                items := s.items ++ [mkItem s.nextItemId now caller f t pr],
                nextItemId := s.nextItemId + 1 },
             mkItem s.nextItemId now caller f t pr) := by
      unfold add_item
      rw [if_neg (by simp [hrole]), hp, ht]
    exact ⟨_, _, hok, rfl, rfl, rfl, rfl⟩

/-- Witness for C3: a buyer is rejected with Forbidden, a seller succeeds
and owns the created item. -/
theorem claim_C3_witness :
    (add_item 3
        { users := [], items := [], msgs := [],
          nextUserId := 1, nextItemId := 1, nextMsgId := 1 }
        { id := 1, email := "b@x.io", password_hash := "h", role := "buyer",
          name := none, phone := none, city := none, verified := false,
          created_at := 0 }
        { title := some "chair", price := some "10", description := none,
          city := none, image := none } = .error .forbidden)
    ∧ (∃ s1 it, add_item 3
        { users := [], items := [], msgs := [],
          nextUserId := 1, nextItemId := 1, nextMsgId := 1 }
        { id := 2, email := "s@x.io", password_hash := "h", role := "seller",
          name := none, phone := none, city := none, verified := false,
          created_at := 0 }
        { title := some "chair", price := some "10", description := none,
          city := none, image := none } = .ok (s1, it) ∧ it.seller_id = 2) := by
  constructor
  · exact (claim_C3 3
      { users := [], items := [], msgs := [],
        nextUserId := 1, nextItemId := 1, nextMsgId := 1 }
      { id := 1, email := "b@x.io", password_hash := "h", role := "buyer",
        name := none, phone := none, city := none, verified := false,
        created_at := 0 }
      { title := some "chair", price := some "10", description := none,
        city := none, image := none }).1 (by decide)
  · obtain ⟨s1, it, hok, _, _, _, _⟩ := (claim_C3 3
      { users := [], items := [], msgs := [],
        nextUserId := 1, nextItemId := 1, nextMsgId := 1 }
      { id := 2, email := "s@x.io", password_hash := "h", role := "seller",
        name := none, phone := none, city := none, verified := false,
        created_at := 0 }
      { title := some "chair", price := some "10", description := none,
        city := none, image := none }).2.2 rfl "chair" rfl 10 (by rfl)
    exact ⟨s1, it, hok, by rename_i h2 _ _ _; exact h2⟩

/-- C7 counterexample: a non-numeric price string does not default to 0;
`float('abc')` raises ValueError and the creation fails with an HTTP 500,
so the claim is false at this input. -/
theorem claim_C7_counterexample :
    add_item 0
        { users := [], items := [], msgs := [],
          nextUserId := 1, nextItemId := 1, nextMsgId := 1 }
        { id := 1, email := "s@x.io", password_hash := "h", role := "seller",
          name := none, phone := none, city := none, verified := false,
          created_at := 0 }
        { title := some "chair", price := some "abc", description := none,
          city := none, image := none }
      = .error .serverError ∧ pyFloat "abc" = none :=
  ⟨rfl, rfl⟩

/-- C7 amended: the price falls back to 0 exactly when the field is absent
or empty; a nonempty string that `float` cannot parse makes the whole
request fail with an unhandled ValueError (HTTP 500) instead of storing 0. -/
theorem claim_C7_amended (now : Nat) (s : State) (caller : User)
    (f : ItemForm) (hrole : caller.role = "seller") (t : String)
    (ht : f.title = some t) :
    ((f.price = none ∨ f.price = some "") →
      ∃ s1 it, add_item now s caller f = .ok (s1, it) ∧ it.price = 0)
    ∧ (∀ str, f.price = some str → str ≠ "" → pyFloat str = none →
        add_item now s caller f = .error .serverError) := by
  constructor
  · intro hp
    have hpp : parsePrice f.price = some 0 := by
      rcases hp with hp | hp <;> simp [parsePrice, hp]
    have hok : add_item now s caller f =
        .ok ({ s with
                items := s.items ++ [mkItem s.nextItemId now caller f t 0],
                nextItemId := s.nextItemId + 1 },
             mkItem s.nextItemId now caller f t 0) := by
      unfold add_item
      rw [if_neg (by simp [hrole]), hpp, ht]
    exact ⟨_, _, hok, rfl⟩
  · intro str hstr hne hnone
    have hpp : parsePrice f.price = none := by
      simp [parsePrice, hstr, hne, hnone]
    unfold add_item
    rw [if_neg (by simp [hrole]), hpp]

/-- Witness for C7 amended: an absent price yields a created item priced 0. -/
theorem claim_C7_amended_witness :
    ∃ s1 it, add_item 4
        { users := [], items := [], msgs := [],
          nextUserId := 1, nextItemId := 1, nextMsgId := 1 }
        { id := 1, email := "s@x.io", password_hash := "h", role := "seller",
          name := none, phone := none, city := none, verified := false,
          created_at := 0 }
        { title := some "sofa", price := none, description := none,
          city := none, image := none } = .ok (s1, it) ∧ it.price = 0 :=
  (claim_C7_amended 4
    { users := [], items := [], msgs := [],
      nextUserId := 1, nextItemId := 1, nextMsgId := 1 }
    { id := 1, email := "s@x.io", password_hash := "h", role := "seller",
      name := none, phone := none, city := none, verified := false,
      created_at := 0 }
    { title := some "sofa", price := none, description := none,
      city := none, image := none } rfl "sofa" rfl).1 (Or.inl rfl)

end TounfiteSouk

namespace TounfiteSouk

/-- The first element surviving a dropWhile fails the predicate. -/
theorem dropWhile_head_false (p : Char → Bool) :
    ∀ (l : List Char) (c : Char) (cs : List Char),
      l.dropWhile p = c :: cs → p c = false := by
  intro l
  induction l with
  | nil => intro c cs h; simp at h
  | cons a as ih =>
      intro c cs h
      rw [List.dropWhile_cons] at h
      split at h
      · exact ih c cs h
      next hpa =>
        injection h with h1 h2
        subst h1
        simpa using hpa

/-- takeWhile keeps everything when every element passes. -/
theorem takeWhile_eq_of_all (p : Char → Bool) :
    ∀ l : List Char, (∀ c ∈ l, p c = true) → l.takeWhile p = l := by
  intro l
  induction l with
  | nil => intro _; rfl
  | cons a as ih =>
      intro h
      rw [List.takeWhile_cons, if_pos (h a (by simp))]
      rw [ih (fun c hc => h c (by simp [hc]))]

/-- Numeric value of the digit character of `n`. -/
theorem digitChar_toNat (n : Nat) : (digitChar n).toNat = 48 + n % 10 := by
  unfold digitChar
  have hk : n % 10 < 10 := Nat.mod_lt _ (by omega)
  generalize n % 10 = k at *
  interval_cases k <;> decide

/-- The decimal rendering of a natural number is never empty. -/
theorem natDigits_ne_nil (n : Nat) : natDigits n ≠ [] := by
  rw [natDigits_eq]
  split
  · simp
  · simp

/-- Every character of a decimal rendering is a digit. -/
theorem natDigits_digits (n : Nat) : ∀ c ∈ natDigits n, isDigitChar c = true := by
  induction n using Nat.strong_induction_on with
  | _ n ih =>
    rw [natDigits_eq]
    split
    · intro c hc
      simp only [List.mem_singleton] at hc
      subst hc
      simp only [isDigitChar, digitChar_toNat, Bool.and_eq_true, decide_eq_true_eq]
      omega
    next h =>
      intro c hc
      rw [List.mem_append] at hc
      rcases hc with hc | hc
      · exact ih (n / 10) (Nat.div_lt_self (by omega) (by omega)) c hc
      · simp only [List.mem_singleton] at hc
        subst hc
        simp only [isDigitChar, digitChar_toNat, Bool.and_eq_true, decide_eq_true_eq]
        omega

/-- Every character of the 14-wide timestamp is a digit. -/
theorem fmt14_digits (now : Nat) : ∀ c ∈ fmt14 now, isDigitChar c = true := by
  intro c hc
  unfold fmt14 at hc
  rw [List.mem_append] at hc
  rcases hc with hc | hc
  · rw [List.eq_of_mem_replicate hc]
    decide
  · exact natDigits_digits now c hc

/-- Digits are kept by the secure-filename character class. -/
theorem keepChar_of_digit {c : Char} (h : isDigitChar c = true) :
    keepChar c = true := by
  simp only [isDigitChar, Bool.and_eq_true, decide_eq_true_eq] at h
  simp only [keepChar, Bool.or_eq_true, Bool.and_eq_true, decide_eq_true_eq,
    beq_iff_eq]
  omega

/-- The underscore is kept by the secure-filename character class. -/
theorem keepChar_underscore : keepChar '_' = true := by decide

/-- Kept characters are ASCII. -/
theorem keepChar_ascii {c : Char} (h : keepChar c = true) : c.toNat < 128 := by
  simp only [keepChar, Bool.or_eq_true, Bool.and_eq_true, decide_eq_true_eq,
    beq_iff_eq] at h
  omega

/-- Kept characters are not whitespace. -/
theorem keepChar_not_space {c : Char} (h : keepChar c = true) :
    isSpaceChar c = false := by
  simp only [keepChar, Bool.or_eq_true, Bool.and_eq_true, decide_eq_true_eq,
    beq_iff_eq] at h
  rw [← Bool.not_eq_true]
  simp only [isSpaceChar, Bool.or_eq_true, beq_iff_eq]
  omega

/-- Kept characters are not the path separator. -/
theorem keepChar_beq_slash {c : Char} (h : keepChar c = true) :
    (c == '/') = false := by
  cases hcb : c == '/' with
  | false => rfl
  | true =>
      have hc : c = '/' := by simpa using hcb
      rw [hc] at h
      exact absurd h (by decide)

/-- Digits are not stripped by `.strip("._")`. -/
theorem isDU_of_digit_false {c : Char} (h : isDigitChar c = true) :
    isDU c = false := by
  simp only [isDigitChar, Bool.and_eq_true, decide_eq_true_eq] at h
  rw [← Bool.not_eq_true]
  simp only [isDU, Bool.or_eq_true, beq_iff_eq]
  omega

/-- A nonempty list with no whitespace is a single word. -/
theorem words_single (l : List Char) (hne : l ≠ [])
    (h : ∀ c ∈ l, isSpaceChar c = false) : words l = [l] := by
  cases l with
  | nil => exact absurd rfl hne
  | cons c cs =>
      rw [words]
      rw [if_neg (by simp [h c (by simp)])]
      have ht : cs.takeWhile (fun d => !isSpaceChar d) = cs :=
        takeWhile_eq_of_all _ cs (fun d hd => by simp [h d (by simp [hd])])
      have hd : cs.dropWhile (fun d => !isSpaceChar d) = [] := by
        rw [List.dropWhile_eq_nil_iff]
        intro x hx
        simp [h x (by simp [hx])]
      rw [ht, hd]
      rw [show words ([] : List Char) = [] from by rw [words]]

/-- Characters of the stripped list come from the original list. -/
theorem mem_of_stripDotUS {c : Char} {l : List Char}
    (h : c ∈ stripDotUS l) : c ∈ l := by
  unfold stripDotUS at h
  rw [List.mem_reverse] at h
  have h1 := (List.dropWhile_sublist isDU).subset h
  rw [List.mem_reverse] at h1
  exact (List.dropWhile_sublist isDU).subset h1

/-- The last character surviving `.strip("._")` is not a dot or
underscore (stated on the reversed list). -/
theorem stripDotUS_rev_head_false (l : List Char) (c : Char) (cs : List Char)
    (h : (stripDotUS l).reverse = c :: cs) : isDU c = false := by
  unfold stripDotUS at h
  rw [List.reverse_reverse] at h
  exact dropWhile_head_false isDU _ c cs h

/-- Every character of a secure filename is in the kept class. -/
theorem secure_chars (orig : String) :
    ∀ c ∈ (secure_filename orig).toList, keepChar c = true := by
  intro c hc
  have hc2 : c ∈ stripDotUS (presecure orig) := hc
  have hc3 : c ∈ presecure orig := mem_of_stripDotUS hc2
  exact (List.mem_filter.mp hc3).2

/-- On a string made only of kept characters, `secure_filename` reduces to
the end strip. -/
theorem secure_of_kept (l : List Char) (h : ∀ c ∈ l, keepChar c = true) :
    secure_filename (String.mk l) = String.mk (stripDotUS l) := by
  unfold secure_filename presecure
  have h1 : (String.mk l).toList.filter (fun c => decide (c.toNat < 128)) = l := by
    apply List.filter_eq_self.mpr
    intro a ha
    simpa using keepChar_ascii (h a ha)
  rw [h1]
  have h2 : l.map (fun c => if c == '/' then ' ' else c) = l := by
    conv_rhs => rw [← List.map_id l]
    apply List.map_congr_left
    intro a ha
    simp [keepChar_beq_slash (h a ha)]
  rw [h2]
  by_cases hl : l = []
  · subst hl
    rw [show words ([] : List Char) = [] from by rw [words]]
    rfl
  · rw [words_single l hl (fun c hc => keepChar_not_space (h c hc))]
    rw [show joinUS [l] = l from rfl]
    rw [List.filter_eq_self.mpr h]

/-- The stored upload name `id_timestamp_securename` is never identical to
the client filename it was derived from. -/
theorem storedName_ne (uid now : Nat) (orig : String) :
    storedName uid now orig ≠ orig := by
  intro heq
  obtain ⟨d, ds, hnd⟩ : ∃ d ds, natDigits uid = d :: ds := by
    cases hh : natDigits uid with
    | nil => exact absurd hh (natDigits_ne_nil uid)
    | cons d ds => exact ⟨d, ds, rfl⟩
  have hddig : isDigitChar d = true :=
    natDigits_digits uid d (by rw [hnd]; simp)
  obtain ⟨F, hF⟩ : ∃ F, (secure_filename orig).toList = F := ⟨_, rfl⟩
  obtain ⟨L, hL⟩ : ∃ L, natDigits uid ++ '_' :: fmt14 now ++ '_' :: F = L :=
    ⟨_, rfl⟩
  have horig : orig = String.mk L := by
    rw [← heq]
    unfold storedName
    rw [hF, hL]
  have hallL : ∀ c ∈ L, keepChar c = true := by
    intro c hc
    rw [← hL] at hc
    simp only [List.mem_append, List.mem_cons] at hc
    rcases hc with (hc | hc | hc) | (hc | hc)
    · exact keepChar_of_digit (natDigits_digits uid c hc)
    · rw [hc]; exact keepChar_underscore
    · exact keepChar_of_digit (fmt14_digits now c hc)
    · rw [hc]; exact keepChar_underscore
    · rw [← hF] at hc; exact secure_chars orig c hc
  have hsec : F = stripDotUS L := by
    have hsk := secure_of_kept L hallL
    rw [← horig] at hsk
    calc F = (secure_filename orig).toList := hF.symm
    _ = (String.mk (stripDotUS L)).toList := by rw [hsk]
    _ = stripDotUS L := rfl
  have hdropL : L.dropWhile isDU = L := by
    rw [← hL, hnd]
    simp only [List.cons_append]
    rw [List.dropWhile_cons, isDU_of_digit_false hddig]
    simp
  cases hFr : F.reverse with
  | nil =>
      have hFnil : F = [] := by
        have h := congrArg List.reverse hFr
        simpa using h
      have hnil : stripDotUS L = [] := by rw [← hsec, hFnil]
      unfold stripDotUS at hnil
      rw [hdropL] at hnil
      have h2 : L.reverse.dropWhile isDU = [] := by
        have h := congrArg List.reverse hnil
        simpa using h
      rw [List.dropWhile_eq_nil_iff] at h2
      have hd : isDU d = true :=
        h2 d (by rw [List.mem_reverse, ← hL, hnd]; simp)
      rw [isDU_of_digit_false hddig] at hd
      exact absurd hd (by simp)
  | cons c cs =>
      have hsp : stripDotUS (presecure orig) = F := hF
      have hcDU : isDU c = false := by
        apply stripDotUS_rev_head_false (presecure orig) c cs
        rw [hsp, hFr]
      have hLsplit : (natDigits uid ++ '_' :: fmt14 now ++ ['_']) ++ F = L := by
        rw [← hL]
        simp
      have hLrev : L.reverse =
          c :: (cs ++ (natDigits uid ++ '_' :: fmt14 now ++ ['_']).reverse) := by
        rw [← hLsplit, List.reverse_append, hFr]
        simp
      have houter : L.reverse.dropWhile isDU = L.reverse := by
        rw [hLrev, List.dropWhile_cons, hcDU]
        simp
      have hstrip : stripDotUS L = L := by
        unfold stripDotUS
        rw [hdropL, houter, List.reverse_reverse]
      rw [hstrip] at hsec
      have hlen := congrArg List.length hsec
      rw [← hL] at hlen
      simp only [List.length_append, List.length_cons] at hlen
      omega

end TounfiteSouk

namespace TounfiteSouk

/-- An accepted filename is nonempty (it must contain a dot). -/
theorem allowed_file_ne_empty {ofn : String} (h : allowed_file ofn = true) :
    ofn ≠ "" := by
  intro he
  rw [he] at h
  exact absurd h (by decide)

/-- C9: on a seller item creation carrying an uploaded file, an image
reference is stored iff the client filename passes `allowed_file` (it
contains a dot and the piece after the final dot, lowercased, is png, jpg,
jpeg or gif); a rejected file stores no reference yet the item is still
created; an accepted one stores `id_timestamp_securename`, which always
differs from the original filename. -/
theorem claim_C9 (now : Nat) (s : State) (caller : User) (f : ItemForm)
    (hrole : caller.role = "seller") (t : String) (ht : f.title = some t)
    (pr : Rat) (hp : parsePrice f.price = some pr)
    (ofn : String) (hi : f.image = some ofn) :
    ∃ s1 it, add_item now s caller f = .ok (s1, it) ∧
      ((it.image_filename.isSome = true) ↔ allowed_file ofn = true) ∧
      (allowed_file ofn = false → it.image_filename = none) ∧
      (allowed_file ofn = true →
        it.image_filename = some (storedName caller.id now ofn) ∧
          storedName caller.id now ofn ≠ ofn) := by
  have hok : add_item now s caller f =
      .ok ({ s with
              items := s.items ++ [mkItem s.nextItemId now caller f t pr],
              nextItemId := s.nextItemId + 1 },
           mkItem s.nextItemId now caller f t pr) := by
    unfold add_item
    rw [if_neg (by simp [hrole]), hp, ht]
  have him : (mkItem s.nextItemId now caller f t pr).image_filename
      = imageName now caller f := rfl
  by_cases hal : allowed_file ofn = true
  · have hcond : ofn ≠ "" ∧ allowed_file ofn = true :=
      ⟨allowed_file_ne_empty hal, hal⟩
    have him2 : imageName now caller f = some (storedName caller.id now ofn) := by
      simp only [imageName, hi]
      rw [if_pos hcond]
    refine ⟨_, _, hok, ?_, ?_, ?_⟩
    · rw [him, him2]
      simp [hal]
    · intro hfalse
      rw [hal] at hfalse
      exact absurd hfalse (by simp)
    · intro _
      exact ⟨by rw [him, him2], storedName_ne caller.id now ofn⟩
  · have hcond : ¬(ofn ≠ "" ∧ allowed_file ofn = true) := fun hc => hal hc.2
    have him2 : imageName now caller f = none := by
      simp only [imageName, hi]
      rw [if_neg hcond]
    refine ⟨_, _, hok, ?_, fun _ => by rw [him, him2], fun htrue => absurd htrue hal⟩
    rw [him, him2]
    simp only [Option.isSome_none, Bool.false_eq_true, false_iff]
    exact hal

/-- Witness for C9: photo.JPG is accepted with a renamed stored file,
photo.EXE is rejected but the item is still created. -/
theorem claim_C9_witness :
    (∃ s1 it, add_item 7
        { users := [], items := [], msgs := [],
          nextUserId := 1, nextItemId := 1, nextMsgId := 1 }
        { id := 2, email := "s@x.io", password_hash := "h", role := "seller",
          name := none, phone := none, city := none, verified := false,
          created_at := 0 }
        { title := some "bike", price := some "5", description := none,
          city := none, image := some "photo.JPG" } = .ok (s1, it) ∧
      it.image_filename = some (storedName 2 7 "photo.JPG") ∧
        storedName 2 7 "photo.JPG" ≠ "photo.JPG")
    ∧ (∃ s1 it, add_item 7
        { users := [], items := [], msgs := [],
          nextUserId := 1, nextItemId := 1, nextMsgId := 1 }
        { id := 2, email := "s@x.io", password_hash := "h", role := "seller",
          name := none, phone := none, city := none, verified := false,
          created_at := 0 }
        { title := some "bike", price := some "5", description := none,
          city := none, image := some "photo.EXE" } = .ok (s1, it) ∧
      it.image_filename = none) := by
  constructor
  · obtain ⟨s1, it, hok, _, _, hacc⟩ := claim_C9 7
      { users := [], items := [], msgs := [],
        nextUserId := 1, nextItemId := 1, nextMsgId := 1 }
      { id := 2, email := "s@x.io", password_hash := "h", role := "seller",
        name := none, phone := none, city := none, verified := false,
        created_at := 0 }
      { title := some "bike", price := some "5", description := none,
        city := none, image := some "photo.JPG" }
      rfl "bike" rfl 5 (by rfl) "photo.JPG" rfl
    obtain ⟨h1, h2⟩ := hacc (by decide)
    exact ⟨s1, it, hok, h1, h2⟩
  · obtain ⟨s1, it, hok, _, hrej, _⟩ := claim_C9 7
      { users := [], items := [], msgs := [],
        nextUserId := 1, nextItemId := 1, nextMsgId := 1 }
      { id := 2, email := "s@x.io", password_hash := "h", role := "seller",
        name := none, phone := none, city := none, verified := false,
        created_at := 0 }
      { title := some "bike", price := some "5", description := none,
        city := none, image := some "photo.EXE" }
      rfl "bike" rfl 5 (by rfl) "photo.EXE" rfl
    exact ⟨s1, it, hok, hrej (by decide)⟩

end TounfiteSouk

namespace TounfiteSouk

/-- ASCII upper-to-lower case fold, the folding SQLite applies in LIKE. -/
def foldA (c : Char) : Char :=
  if 65 ≤ c.toNat && c.toNat ≤ 90 then Char.ofNat (c.toNat + 32) else c

/-- SQL LIKE matching as SQLite evaluates it: in the pattern `%` matches
any run of characters (tried as every suffix of the text), `_` matches
any single character, and ordinary characters compare
ASCII-case-insensitively. -/
def likeMatch : List Char → List Char → Bool
  | [], s => s.isEmpty
  | '%' :: ps, s => s.tails.any (fun t => likeMatch ps t)
  | '_' :: _, [] => false
  | '_' :: ps, _ :: ss => likeMatch ps ss
  | _ :: _, [] => false
  | p :: ps, c :: ss => (foldA p == foldA c) && likeMatch ps ss

/-- `column.contains(q)`: SQLAlchemy emits `column LIKE '%' || q || '%'`
(no autoescape), which on the configured SQLite backend is the
case-insensitive, wildcard-honouring match above. -/
def sqlContains (q : String) (v : String) : Bool :=
  likeMatch ('%' :: (q.toList ++ ['%'])) v.toList

/-- LIKE against a nullable column: NULL matches nothing. -/
def sqlContainsOpt (q : String) (v : Option String) : Bool :=
  match v with
  | none => false
  | some t => sqlContains q t

/-- `Item.query.order_by(Item.created_at.desc())`: newest first. -/
def sortNewest (l : List Item) : List Item :=
  List.insertionSort (fun a b => b.created_at ≤ a.created_at) l

/-- The text filter of the `/items` route, applied when `q` is nonempty:
title OR description contains `q`. -/
def itemsText (q : String) (l : List Item) : List Item :=
  if q = "" then l
  else l.filter (fun it => sqlContains q it.title || sqlContainsOpt q it.description)

/-- The city filter of the `/items` route, applied when `city` is
nonempty. -/
def itemsCity (c : String) (l : List Item) : List Item :=
  if c = "" then l
  else l.filter (fun it => sqlContainsOpt c it.city)

/-- The `/items` listing route: strip both query parameters, order all
items newest first, then apply the text and city filters when present. -/
def items (s : State) (qRaw cityRaw : String) : List Item :=
  itemsCity (pyStrip cityRaw) (itemsText (pyStrip qRaw) (sortNewest s.items))

/-- Case-sensitive substring containment: a second definition written from
the claim's words (not from the source), to compare with the LIKE
behaviour the source actually has. -/
def specSubstr (needle hay : String) : Bool :=
  hay.toList.tails.any (fun t => needle.toList.isPrefixOf t)

/-- Sorting newest-first permutes the stored items. -/
theorem sortNewest_perm (l : List Item) : (sortNewest l).Perm l :=
  List.perm_insertionSort _ l

/-- Sorting newest-first yields a creation-time-descending list. -/
theorem sortNewest_sorted (l : List Item) :
    List.Pairwise (fun a b => b.created_at ≤ a.created_at) (sortNewest l) := by
  haveI htot : IsTotal Item (fun a b => b.created_at ≤ a.created_at) :=
    ⟨fun a b => Nat.le_total b.created_at a.created_at⟩
  haveI htr : IsTrans Item (fun a b => b.created_at ≤ a.created_at) :=
    ⟨fun a b c h1 h2 => Nat.le_trans h2 h1⟩
  exact List.sorted_insertionSort _ l

/-- The one-item store for the C5 counterexample. -/
def itemChair : Item :=
  { id := 1, title := "Chair", price := 0, description := none,
    city := none, image_filename := none, created_at := 0, seller_id := 1 }

/-- A store holding only `itemChair`. -/
def stChair : State :=
  { users := [], items := [itemChair], msgs := [],
    nextUserId := 2, nextItemId := 2, nextMsgId := 1 }

/-- C5 counterexample: with one stored item titled "Chair" (no
description), the query text "chair" returns that item even though its
title and description do not contain "chair" as a case-sensitive
substring (SQLite LIKE is ASCII-case-insensitive), so the claim as stated
is false at this input. -/
theorem claim_C5_counterexample :
    items stChair "chair" "" = [itemChair]
    ∧ itemChair.title = "Chair" ∧ itemChair.description = none
    ∧ specSubstr "chair" itemChair.title = false := by
  exact ⟨rfl, rfl, rfl, rfl⟩

/-- C5 amended: the listing query returns exactly the stored items that
match the present filters under SQLite LIKE semantics (ASCII
case-insensitive, `%` and `_` in the filter acting as wildcards; title OR
description for the text filter, city for the city filter, conjoined),
ordered newest-first by creation time. -/
theorem claim_C5_amended (s : State) (qRaw cityRaw : String) :
    List.Pairwise (fun a b => b.created_at ≤ a.created_at)
        (items s qRaw cityRaw)
    ∧ (items s qRaw cityRaw).Perm (s.items.filter (fun it =>
        (decide (pyStrip qRaw = "") || sqlContains (pyStrip qRaw) it.title ||
          sqlContainsOpt (pyStrip qRaw) it.description) &&
        (decide (pyStrip cityRaw = "") ||
          sqlContainsOpt (pyStrip cityRaw) it.city))) := by
  unfold items itemsText itemsCity
  by_cases hq : pyStrip qRaw = "" <;> by_cases hc : pyStrip cityRaw = ""
  · rw [if_pos hq, if_pos hc]
    refine ⟨sortNewest_sorted s.items, ?_⟩
    have hrw : s.items.filter (fun it =>
        (decide (pyStrip qRaw = "") || sqlContains (pyStrip qRaw) it.title ||
          sqlContainsOpt (pyStrip qRaw) it.description) &&
        (decide (pyStrip cityRaw = "") ||
          sqlContainsOpt (pyStrip cityRaw) it.city)) = s.items := by
      apply List.filter_eq_self.mpr
      intro a _
      simp [hq, hc]
    rw [hrw]
    exact sortNewest_perm s.items
  · rw [if_pos hq, if_neg hc]
    refine ⟨(sortNewest_sorted s.items).filter _, ?_⟩
    have hrw : s.items.filter (fun it =>
        (decide (pyStrip qRaw = "") || sqlContains (pyStrip qRaw) it.title ||
          sqlContainsOpt (pyStrip qRaw) it.description) &&
        (decide (pyStrip cityRaw = "") ||
          sqlContainsOpt (pyStrip cityRaw) it.city)) =
        s.items.filter (fun it => sqlContainsOpt (pyStrip cityRaw) it.city) := by
      apply List.filter_congr
      intro a _
      simp [hq, hc]
    rw [hrw]
    exact (sortNewest_perm s.items).filter _
  · rw [if_neg hq, if_pos hc]
    refine ⟨(sortNewest_sorted s.items).filter _, ?_⟩
    have hrw : s.items.filter (fun it =>
        (decide (pyStrip qRaw = "") || sqlContains (pyStrip qRaw) it.title ||
          sqlContainsOpt (pyStrip qRaw) it.description) &&
        (decide (pyStrip cityRaw = "") ||
          sqlContainsOpt (pyStrip cityRaw) it.city)) =
        s.items.filter (fun it => sqlContains (pyStrip qRaw) it.title ||
          sqlContainsOpt (pyStrip qRaw) it.description) := by
      apply List.filter_congr
      intro a _
      simp [hq, hc]
    rw [hrw]
    exact (sortNewest_perm s.items).filter _
  · rw [if_neg hq, if_neg hc]
    refine ⟨((sortNewest_sorted s.items).filter _).filter _, ?_⟩
    rw [List.filter_filter]
    have hrw : s.items.filter (fun it =>
        (decide (pyStrip qRaw = "") || sqlContains (pyStrip qRaw) it.title ||
          sqlContainsOpt (pyStrip qRaw) it.description) &&
        (decide (pyStrip cityRaw = "") ||
          sqlContainsOpt (pyStrip cityRaw) it.city)) =
        s.items.filter (fun it =>
          sqlContainsOpt (pyStrip cityRaw) it.city &&
          (sqlContains (pyStrip qRaw) it.title ||
            sqlContainsOpt (pyStrip qRaw) it.description)) := by
      apply List.filter_congr
      intro a _
      simp [hq, hc, Bool.and_comm]
    rw [hrw]
    exact (sortNewest_perm s.items).filter _

end TounfiteSouk

namespace TounfiteSouk

/-- A `message` row as inserted by both send paths:
`Message(sender_id=..., receiver_id=..., content=...)`. -/
def mkMsg (mid sid rid : Nat) (content : String) (now : Nat) : Msg :=
  { id := mid, sender_id := sid, receiver_id := rid, content := content,
    created_at := now }

/-- `order_by(Message.created_at)`: oldest first, for the thread view. -/
def sortOldest (l : List Msg) : List Msg :=
  List.insertionSort (fun a b => a.created_at ≤ b.created_at) l

/-- The thread filter of the `/messages` route: messages between the two
users in either direction. -/
def betweenMsg (uid otherId : Nat) (m : Msg) : Bool :=
  (m.sender_id == uid && m.receiver_id == otherId) ||
    (m.sender_id == otherId && m.receiver_id == uid)

/-- The conversation transcript of the `/messages` route: both directions
between the session user and the chosen partner, ordered by creation time
ascending. -/
def thread (s : State) (uid otherId : Nat) : List Msg :=
  sortOldest (s.msgs.filter (betweenMsg uid otherId))

/-- The conversation-partner computation of the `/messages` route: scan
the messages the session user sent or received, collect the other party
of each (the sender unless that is the user, else the receiver), as a
set (modelled as a deduplicated list). -/
def partnerIds (s : State) (uid : Nat) : List Nat :=
  ((s.msgs.filter (fun m => m.sender_id == uid || m.receiver_id == uid)).map
    (fun m => if m.sender_id != uid then m.sender_id else m.receiver_id)).dedup

/-- The POST branch of the `/messages` route with a `with_id` partner: if
the partner id resolves to a user and the content is nonempty, a message
from the session user to that partner is inserted; otherwise nothing
changes. -/
def sendMessage (now : Nat) (s : State) (caller : User) (withId : Nat)
    (content : Option String) : State :=
  match s.users.find? (fun u => u.id == withId) with
  | none => s
  | some other =>
      if truthy content then
        { s with
            msgs := s.msgs ++
              [mkMsg s.nextMsgId caller.id other.id (content.getD "") now],
            nextMsgId := s.nextMsgId + 1 }
      else s

/-- Failure outcomes of the `/contact/<seller_id>` route:
`get_or_404` on an unknown id, and the empty-content flash. -/
inductive ContactErr
  | notFound
  | empty
deriving Repr, DecidableEq

/-- The POST branch of the `/contact/<seller_id>` route: 404 when the id
resolves to no user, an empty-content redirect otherwise, else a message
from the session user to that seller is inserted. -/
def contact_seller (now : Nat) (s : State) (caller : User) (sellerId : Nat)
    (content : Option String) : Except ContactErr (State × Msg) :=
  match s.users.find? (fun u => u.id == sellerId) with
  | none => .error .notFound
  | some seller =>
      if truthy content = false then .error .empty
      else
        .ok ({ s with
                msgs := s.msgs ++
                  [mkMsg s.nextMsgId caller.id seller.id (content.getD "") now],
                nextMsgId := s.nextMsgId + 1 },
             mkMsg s.nextMsgId caller.id seller.id (content.getD "") now)

/-- Ordering a thread oldest-first permutes its messages. -/
theorem sortOldest_perm (l : List Msg) : (sortOldest l).Perm l :=
  List.perm_insertionSort _ l

/-- Ordering a thread oldest-first yields ascending creation times. -/
theorem sortOldest_sorted (l : List Msg) :
    List.Pairwise (fun a b => a.created_at ≤ b.created_at) (sortOldest l) := by
  haveI htot : IsTotal Msg (fun a b => a.created_at ≤ b.created_at) :=
    ⟨fun a b => Nat.le_total a.created_at b.created_at⟩
  haveI htr : IsTrans Msg (fun a b => a.created_at ≤ b.created_at) :=
    ⟨fun a b c h1 h2 => Nat.le_trans h1 h2⟩
  exact List.sorted_insertionSort _ l

/-- User A of the messaging fixtures. -/
def uA : User :=
  { id := 1, email := "a@x.io", password_hash := "h", role := "buyer",
    name := none, phone := none, city := none, verified := false,
    created_at := 0 }

/-- User B of the messaging fixtures. -/
def uB : User :=
  { id := 2, email := "b@x.io", password_hash := "h", role := "seller",
    name := none, phone := none, city := none, verified := false,
    created_at := 0 }

/-- User C of the messaging fixtures. -/
def uC : User :=
  { id := 3, email := "c@x.io", password_hash := "h", role := "seller",
    name := none, phone := none, city := none, verified := false,
    created_at := 0 }

/-- A store with users A, B, C and no messages. -/
def stABC : State :=
  { users := [uA, uB, uC], items := [], msgs := [],
    nextUserId := 4, nextItemId := 1, nextMsgId := 1 }

/-- The store after A sends "hi" to B on the empty message table. -/
def stHi : State := sendMessage 5 stABC uA 2 (some "hi")

/-- The store after the exchanges A to B, B to A, A to C. -/
def st3 : State :=
  sendMessage 3 (sendMessage 2 (sendMessage 1 stABC uA 2 (some "x"))
    uB 1 (some "y")) uA 3 (some "z")

/-- C6: after A sends "hi" to B on an empty table, thread(A,B) and
thread(B,A) are the same one-element transcript and each is the other's
partner; in general a thread holds exactly the messages between the two
users in either direction, ordered by creation time ascending; and the
partner set deduplicates, giving partners(A) = the set of B and C after
the exchanges A to B, B to A, A to C. -/
theorem claim_C6 :
    (thread stHi 1 2 = [mkMsg 1 1 2 "hi" 5]
      ∧ thread stHi 2 1 = [mkMsg 1 1 2 "hi" 5]
      ∧ partnerIds stHi 1 = [2] ∧ partnerIds stHi 2 = [1])
    ∧ (∀ (s : State) (u v : Nat),
        List.Pairwise (fun a b => a.created_at ≤ b.created_at) (thread s u v)
        ∧ (thread s u v).Perm (s.msgs.filter (betweenMsg u v)))
    ∧ ((∀ x, x ∈ partnerIds st3 1 ↔ (x = 2 ∨ x = 3))
      ∧ (partnerIds st3 1).Nodup) := by
  refine ⟨⟨rfl, rfl, rfl, rfl⟩, ?_, ?_⟩
  · intro s u v
    exact ⟨sortOldest_sorted _, sortOldest_perm _⟩
  · constructor
    · intro x
      show x ∈ [2, 3] ↔ (x = 2 ∨ x = 3)
      simp
    · show ([2, 3] : List Nat).Nodup
      decide

end TounfiteSouk

namespace TounfiteSouk

/-- The `/my_items` route: seller-only listing of the items whose
`seller_id` is the session user, newest first. -/
def my_items (s : State) (caller : User) : Except AddErr (List Item) :=
  if caller.role ≠ "seller" then .error .forbidden
  else .ok (sortNewest (s.items.filter (fun it => it.seller_id == caller.id)))

/-- The POST branch of the `/profile` route: overwrite the session user's
name, phone and city unconditionally with the submitted fields. -/
def profile_post (s : State) (callerId : Nat)
    (name phone city : Option String) : State :=
  { s with
      users := s.users.map (fun u =>
        if u.id == callerId then
          { u with name := name, phone := phone, city := city }
        else u) }

/-- Clear one user's verified flag. -/
def stripU (u : User) : User := { u with verified := false }

/-- Clear every verified flag in the store: two stores related by this map
differ only in verified flags. -/
def stripV (s : State) : State := { s with users := s.users.map stripU }

/-- C10 (implicit): the verified flag gates nothing.  Registration creates
the user unverified (and logs it straight in: the returned record is the
session identity); login resolves the same identity on a store with all
verified flags cleared; and item creation, listing one's own items, both
message-sending paths and the profile update all commute with clearing
verified flags, so no authenticated operation can observe the flag. -/
theorem claim_C10 :
    (∀ (now : Nat) (gen : String → String) (s : State) (f : RegForm)
        (s1 : State) (u : User),
        register now gen s f = .ok (s1, u) → u.verified = false)
    ∧ (∀ (s : State) (check : String → String → Bool) (e p : String),
        Except.map User.id (login (stripV s) check e p)
          = Except.map User.id (login s check e p))
    ∧ (∀ (now : Nat) (s : State) (caller : User) (f : ItemForm),
        add_item now (stripV s) (stripU caller) f
          = Except.map (fun r => (stripV r.1, r.2)) (add_item now s caller f))
    ∧ (∀ (s : State) (caller : User),
        my_items (stripV s) (stripU caller) = my_items s caller)
    ∧ (∀ (now : Nat) (s : State) (caller : User) (wid : Nat)
        (content : Option String),
        sendMessage now (stripV s) (stripU caller) wid content
          = stripV (sendMessage now s caller wid content))
    ∧ (∀ (now : Nat) (s : State) (caller : User) (sid : Nat)
        (content : Option String),
        contact_seller now (stripV s) (stripU caller) sid content
          = Except.map (fun r => (stripV r.1, r.2))
              (contact_seller now s caller sid content))
    ∧ (∀ (s : State) (cid : Nat) (n p c : Option String),
        profile_post (stripV s) cid n p c = stripV (profile_post s cid n p c)) := by
  refine ⟨?_, ?_, ?_, ?_, ?_, ?_, ?_⟩
  · intro now gen s f s1 u h
    unfold register at h
    by_cases h1 : normEmail f.email = "" ∨ truthy f.password = false
    · simp [h1] at h
    · rw [if_neg h1] at h
      by_cases h2 : (findByEmail s (normEmail f.email)).isSome
      · simp [h2] at h
      · rw [if_neg h2] at h
        simp only [Except.ok.injEq, Prod.mk.injEq] at h
        rw [← h.2]
        rfl
  · intro s check e p
    unfold login findByEmail
    rw [show (stripV s).users = s.users.map stripU from rfl, List.find?_map]
    have hpp : ((fun u : User => u.email == normEmail e) ∘ stripU)
        = (fun u : User => u.email == normEmail e) := by
      funext u
      rfl
    rw [hpp]
    cases hf : s.users.find? (fun u => u.email == normEmail e) with
    | none => rfl
    | some u =>
        simp only [Option.map_some']
        rw [show (stripU u).password_hash = u.password_hash from rfl]
        by_cases hc : check u.password_hash p
        · rw [if_pos hc, if_pos hc]
          rfl
        · rw [if_neg hc, if_neg hc]
  · intro now s caller f
    unfold add_item
    rw [show (stripU caller).role = caller.role from rfl]
    by_cases hr : caller.role ≠ "seller"
    · rw [if_pos hr, if_pos hr]
      rfl
    · rw [if_neg hr, if_neg hr]
      cases hp : parsePrice f.price with
      | none => rfl
      | some pr =>
          cases ht : f.title with
          | none => rfl
          | some t => rfl
  · intro s caller
    unfold my_items
    rw [show (stripU caller).role = caller.role from rfl]
    by_cases hr : caller.role ≠ "seller"
    · rw [if_pos hr, if_pos hr]
    · rw [if_neg hr, if_neg hr]
      rfl
  · intro now s caller wid content
    unfold sendMessage
    rw [show (stripV s).users = s.users.map stripU from rfl, List.find?_map]
    have hpp : ((fun u : User => u.id == wid) ∘ stripU)
        = (fun u : User => u.id == wid) := by
      funext u
      rfl
    rw [hpp]
    cases hf : s.users.find? (fun u => u.id == wid) with
    | none => rfl
    | some other =>
        simp only [Option.map_some']
        by_cases hc : truthy content = true
        · rw [if_pos hc, if_pos hc]
          rfl
        · rw [if_neg hc, if_neg hc]
  · intro now s caller sid content
    unfold contact_seller
    rw [show (stripV s).users = s.users.map stripU from rfl, List.find?_map]
    have hpp : ((fun u : User => u.id == sid) ∘ stripU)
        = (fun u : User => u.id == sid) := by
      funext u
      rfl
    rw [hpp]
    cases hf : s.users.find? (fun u => u.id == sid) with
    | none => rfl
    | some seller =>
        simp only [Option.map_some']
        by_cases hc : truthy content = false
        · rw [if_pos hc, if_pos hc]
          rfl
        · rw [if_neg hc, if_neg hc]
          rfl
  · intro s cid n p c
    unfold profile_post stripV
    simp only [List.map_map]
    have hpp : ∀ u ∈ s.users,
        ((fun u : User => if u.id == cid then
            { u with name := n, phone := p, city := c } else u) ∘ stripU) u
          = (stripU ∘ (fun u : User => if u.id == cid then
              { u with name := n, phone := p, city := c } else u)) u := by
      intro u _
      simp only [Function.comp_apply]
      rw [show (stripU u).id = u.id from rfl]
      by_cases hc : u.id == cid
      · rw [if_pos hc, if_pos hc]
        rfl
      · rw [if_neg hc, if_neg hc]
    rw [List.map_congr_left hpp]

end TounfiteSouk

namespace TounfiteSouk

/-- Every Unicode scalar value fits in seven decimal digits. -/
theorem char_toNat_lt (c : Char) : c.toNat < 1114112 := by
  have h := c.valid
  have he : c.toNat = c.val.toNat := rfl
  rcases h with h | h <;> (rw [he]; omega)

/-- Fixed-width seven-digit decimal block for one character code point. -/
def pad7 (n : Nat) : List Char :=
  List.replicate (7 - (natDigits n).length) '0' ++ natDigits n

/-- Injective, dot-free serialisation of a character list: each character
as its seven-digit decimal code point. -/
def encStr : List Char → List Char
  | [] => []
  | c :: cs => pad7 c.toNat ++ encStr cs

/-- Inverse of `encStr`: consume seven-digit blocks. -/
def decStr : List Char → Option (List Char)
  | [] => some []
  | c1 :: c2 :: c3 :: c4 :: c5 :: c6 :: c7 :: rest =>
      if allDigits [c1, c2, c3, c4, c5, c6, c7] then
        (decStr rest).map
          (fun l => Char.ofNat (digitsVal [c1, c2, c3, c4, c5, c6, c7]) :: l)
      else none
  | _ => none

/-- Modelled from the spec: the keyed signature inside the itsdangerous
`URLSafeTimedSerializer` (library code outside this repository) is an
HMAC over the signed bytes, derived from the server secret and the salt
namespace.  The model idealises it as a perfect MAC: a dot-free string
determined by, and injective in, (secret, salt, message), which is the
collision-freeness the real construction is trusted for. -/
def mac (secret salt : String) (m : List Char) : List Char :=
  encStr secret.toList ++ encStr salt.toList ++ encStr m

/-- The signed bytes of a token: the serialised payload, a separator dot,
and the issuance timestamp in seconds. -/
def signedPart (email : String) (ts : Nat) : List Char :=
  encStr email.toList ++ '.' :: natDigits ts

/-- `s.dumps(email, salt=...)`: payload, dot, timestamp, dot, signature
over the preceding bytes. -/
def dumps (secret salt email : String) (ts : Nat) : List Char :=
  signedPart email ts ++ '.' :: mac secret salt (signedPart email ts)

/-- The run of characters after the last dot (the whole list when it has
no dot). -/
def afterLastDot (l : List Char) : List Char :=
  (l.reverse.takeWhile (fun c => !(c == '.'))).reverse

/-- Split a token at its last dot: (everything before, everything after);
`none` when it has no dot. -/
def splitAtLastDot (l : List Char) : Option (List Char × List Char) :=
  if (afterLastDot l).length == l.length then none
  else some (l.take (l.length - (afterLastDot l).length - 1), afterLastDot l)

/-- The three outcomes of redeeming a token: the embedded email, a
signature failure, or staleness beyond the allowed age. -/
inductive RedeemResult
  | ok (email : String)
  | invalid
  | expired
deriving Repr, DecidableEq

/-- `s.loads(token, salt=..., max_age=...)`: verify the signature over the
bytes before the last dot first; only then unpack and check the
timestamp (any malformation is a BadSignature, surfacing as Invalid), and
fail Expired when the token is older than `maxAge` seconds; finally
deserialise the payload. -/
def loads (secret salt : String) (maxAge now : Nat) (token : List Char) :
    RedeemResult :=
  match splitAtLastDot token with
  | none => .invalid
  | some (sp, sig) =>
      if sig ≠ mac secret salt sp then .invalid
      else
        match splitAtLastDot sp with
        | none => .invalid
        | some (payload, tsc) =>
            if tsc = [] ∨ allDigits tsc = false then .invalid
            else if maxAge < now - digitsVal tsc then .expired
            else
              match decStr payload with
              | none => .invalid
              | some em => .ok (String.mk em)

/-- `send_verification_email`: the token it mails is
`s.dumps(user.email, salt='email-verify')`. -/
def issueToken (secret email : String) (ts : Nat) : List Char :=
  dumps secret "email-verify" email ts

/-- The `verify_email` route redemption:
`s.loads(token, salt='email-verify', max_age=60*60*24)`. -/
def redeemToken (secret : String) (now : Nat) (t : List Char) : RedeemResult :=
  loads secret "email-verify" (60 * 60 * 24) now t

/-- A single-byte alteration: same length, exactly one position changed. -/
def ByteAlter (t t2 : List Char) : Prop :=
  ∃ i c, i < t.length ∧ t.getD i ' ' ≠ c ∧ t2 = t.set i c

end TounfiteSouk

namespace TounfiteSouk

/-- Decimal renderings fit in one more digit than the bound's exponent. -/
theorem natDigits_length_le (k : Nat) :
    ∀ n, n < 10 ^ (k + 1) → (natDigits n).length ≤ k + 1 := by
  induction k with
  | zero =>
      intro n h
      have h10 : n < 10 := by simpa using h
      rw [natDigits_eq, if_pos h10]
      simp
  | succ k ih =>
      intro n h
      rw [natDigits_eq]
      by_cases h10 : n < 10
      · rw [if_pos h10]
        simp
      · rw [if_neg h10]
        simp only [List.length_append, List.length_cons, List.length_nil]
        have hdiv : n / 10 < 10 ^ (k + 1) := by
          rw [Nat.div_lt_iff_lt_mul (by omega)]
          calc n < 10 ^ (k + 1 + 1) := h
          _ = 10 ^ (k + 1) * 10 := by rw [Nat.pow_succ]
        have := ih (n / 10) hdiv
        omega

/-- A code point block is exactly seven characters wide. -/
theorem pad7_length (n : Nat) (h : n < 10000000) : (pad7 n).length = 7 := by
  unfold pad7
  rw [List.length_append, List.length_replicate]
  have h1 : (natDigits n).length ≤ 7 := natDigits_length_le 6 n (by omega)
  have h2 : 0 < (natDigits n).length := List.length_pos.mpr (natDigits_ne_nil n)
  omega

/-- Appending one digit multiplies the value by ten and adds it. -/
theorem digitsVal_append (l : List Char) (c : Char) :
    digitsVal (l ++ [c]) = 10 * digitsVal l + (c.toNat - 48) := by
  unfold digitsVal
  rw [List.foldl_append]
  rfl

/-- The decimal rendering evaluates back to the number. -/
theorem digitsVal_natDigits (n : Nat) : digitsVal (natDigits n) = n := by
  induction n using Nat.strong_induction_on with
  | _ n ih =>
    rw [natDigits_eq]
    by_cases h10 : n < 10
    · rw [if_pos h10]
      have h1 : digitsVal [digitChar n] = 10 * 0 + ((digitChar n).toNat - 48) := rfl
      rw [h1, digitChar_toNat]
      omega
    · rw [if_neg h10]
      rw [digitsVal_append, ih (n / 10) (Nat.div_lt_self (by omega) (by omega)),
        digitChar_toNat]
      omega

/-- Leading zeros do not change the value. -/
theorem digitsVal_replicate_zero (k : Nat) (l : List Char) :
    digitsVal (List.replicate k '0' ++ l) = digitsVal l := by
  induction k with
  | zero => rfl
  | succ k ih =>
      rw [List.replicate_succ, List.cons_append]
      exact ih

/-- A padded block evaluates back to the code point. -/
theorem digitsVal_pad7 (n : Nat) : digitsVal (pad7 n) = n := by
  unfold pad7
  rw [digitsVal_replicate_zero, digitsVal_natDigits]

/-- Every character of a padded block is a digit. -/
theorem pad7_digits (n : Nat) : ∀ c ∈ pad7 n, isDigitChar c = true := by
  intro c hc
  unfold pad7 at hc
  rw [List.mem_append] at hc
  rcases hc with hc | hc
  · rw [List.eq_of_mem_replicate hc]
    decide
  · exact natDigits_digits n c hc

/-- Every character of a serialised payload is a digit. -/
theorem encStr_digits (l : List Char) : ∀ c ∈ encStr l, isDigitChar c = true := by
  induction l with
  | nil => intro c hc; simp [encStr] at hc
  | cons a as ih =>
      intro c hc
      rw [show encStr (a :: as) = pad7 a.toNat ++ encStr as from rfl,
        List.mem_append] at hc
      rcases hc with hc | hc
      · exact pad7_digits a.toNat c hc
      · exact ih c hc

/-- Digits are not dots. -/
theorem digit_beq_dot {c : Char} (h : isDigitChar c = true) :
    (c == '.') = false := by
  cases hcb : c == '.' with
  | false => rfl
  | true =>
      have hc : c = '.' := by simpa using hcb
      rw [hc] at h
      exact absurd h (by decide)

/-- Serialisation is exactly seven characters per source character. -/
theorem encStr_length (l : List Char) : (encStr l).length = 7 * l.length := by
  induction l with
  | nil => rfl
  | cons a as ih =>
      rw [show encStr (a :: as) = pad7 a.toNat ++ encStr as from rfl,
        List.length_append, ih,
        pad7_length a.toNat (by have := char_toNat_lt a; omega),
        List.length_cons]
      omega

/-- A list of length seven is a seven-element literal. -/
theorem exists_seven (b : List Char) (h : b.length = 7) :
    ∃ a1 a2 a3 a4 a5 a6 a7, b = [a1, a2, a3, a4, a5, a6, a7] := by
  rcases b with _ | ⟨a1, b⟩
  · simp at h
  rcases b with _ | ⟨a2, b⟩
  · simp at h
  rcases b with _ | ⟨a3, b⟩
  · simp at h
  rcases b with _ | ⟨a4, b⟩
  · simp at h
  rcases b with _ | ⟨a5, b⟩
  · simp at h
  rcases b with _ | ⟨a6, b⟩
  · simp at h
  rcases b with _ | ⟨a7, b⟩
  · simp at h
  rcases b with _ | ⟨a8, b⟩
  · exact ⟨a1, a2, a3, a4, a5, a6, a7, rfl⟩
  · simp at h

/-- Deserialisation inverts serialisation. -/
theorem decStr_encStr (l : List Char) : decStr (encStr l) = some l := by
  induction l with
  | nil => rfl
  | cons c cs ih =>
      have h7 : (pad7 c.toNat).length = 7 :=
        pad7_length _ (by have := char_toNat_lt c; omega)
      obtain ⟨a1, a2, a3, a4, a5, a6, a7, hb⟩ := exists_seven _ h7
      have hdig : allDigits [a1, a2, a3, a4, a5, a6, a7] = true := by
        rw [← hb]
        unfold allDigits
        rw [List.all_eq_true]
        exact pad7_digits c.toNat
      have hv : digitsVal [a1, a2, a3, a4, a5, a6, a7] = c.toNat := by
        rw [← hb, digitsVal_pad7]
      rw [show encStr (c :: cs) = pad7 c.toNat ++ encStr cs from rfl, hb]
      rw [show decStr ([a1, a2, a3, a4, a5, a6, a7] ++ encStr cs)
          = (if allDigits [a1, a2, a3, a4, a5, a6, a7] = true then
              (decStr (encStr cs)).map
                (fun l => Char.ofNat (digitsVal [a1, a2, a3, a4, a5, a6, a7]) :: l)
            else none) from rfl]
      rw [if_pos hdig, hv, ih, Char.ofNat_toNat]
      rfl

/-- Serialisation is injective. -/
theorem encStr_inj {a b : List Char} (h : encStr a = encStr b) : a = b := by
  have ha := decStr_encStr a
  rw [h, decStr_encStr b] at ha
  injection ha with h2
  exact h2.symm

/-- The ideal MAC is injective in its message. -/
theorem mac_inj {secret salt : String} {m1 m2 : List Char}
    (h : mac secret salt m1 = mac secret salt m2) : m1 = m2 := by
  unfold mac at h
  exact encStr_inj (List.append_cancel_left h)

/-- The ideal MAC contains no dot. -/
theorem mac_no_dot (secret salt : String) (m : List Char) :
    ∀ c ∈ mac secret salt m, (c == '.') = false := by
  intro c hc
  unfold mac at hc
  rw [List.append_assoc, List.mem_append, List.mem_append] at hc
  rcases hc with hc | hc | hc
  · exact digit_beq_dot (encStr_digits _ c hc)
  · exact digit_beq_dot (encStr_digits _ c hc)
  · exact digit_beq_dot (encStr_digits _ c hc)

/-- Length of the ideal MAC. -/
theorem mac_length (secret salt : String) (m : List Char) :
    (mac secret salt m).length =
      (encStr secret.toList).length + (encStr salt.toList).length + 7 * m.length := by
  unfold mac
  rw [List.length_append, List.length_append]
  simp [encStr_length]

/-- takeWhile stops exactly at the first failing element. -/
theorem takeWhile_append_stop (p : Char → Bool) (X : List Char) (y : Char)
    (Z : List Char) (hX : ∀ c ∈ X, p c = true) (hy : p y = false) :
    (X ++ y :: Z).takeWhile p = X := by
  induction X with
  | nil =>
      rw [List.nil_append, List.takeWhile_cons, if_neg (by simp [hy])]
  | cons x xs ih =>
      rw [List.cons_append, List.takeWhile_cons, if_pos (hX x (by simp))]
      rw [ih (fun c hc => hX c (by simp [hc]))]

/-- Splitting at the last dot of `A ++ '.' :: B` with `B` dot-free
recovers `(A, B)`. -/
theorem splitAtLastDot_append (A B : List Char)
    (hB : ∀ c ∈ B, (c == '.') = false) :
    splitAtLastDot (A ++ '.' :: B) = some (A, B) := by
  have hafter : afterLastDot (A ++ '.' :: B) = B := by
    unfold afterLastDot
    have hrev : (A ++ '.' :: B).reverse = B.reverse ++ '.' :: A.reverse := by
      rw [List.reverse_append, List.reverse_cons, List.append_assoc]
      rfl
    rw [hrev, takeWhile_append_stop _ _ _ _
      (fun c hc => by rw [List.mem_reverse] at hc; simp [hB c hc]) (by simp),
      List.reverse_reverse]
  unfold splitAtLastDot
  rw [hafter]
  rw [if_neg (by
    intro hq
    rw [beq_iff_eq] at hq
    simp only [List.length_append, List.length_cons] at hq
    omega)]
  have htake : (A ++ '.' :: B).length - B.length - 1 = A.length := by
    simp only [List.length_append, List.length_cons]
    omega
  rw [htake, List.take_left]

end TounfiteSouk

namespace TounfiteSouk

/-- Any token whose last-dot decomposition carries the wrong signature is
rejected as Invalid, before the timestamp is even looked at. -/
theorem loads_invalid_of_sig (secret salt : String) (maxAge now : Nat)
    (A B : List Char) (hB : ∀ c ∈ B, (c == '.') = false)
    (hne : B ≠ mac secret salt A) :
    loads secret salt maxAge now (A ++ '.' :: B) = .invalid := by
  unfold loads
  simp only [splitAtLastDot_append A B hB]
  rw [if_pos hne]

/-- Redeeming an untampered token yields its email when fresh and Expired
when older than the allowed age. -/
theorem loads_dumps (secret salt email : String) (ts maxAge now : Nat) :
    loads secret salt maxAge now (dumps secret salt email ts)
      = if maxAge < now - ts then .expired else .ok email := by
  unfold loads dumps signedPart
  have hG := mac_no_dot secret salt (encStr email.toList ++ '.' :: natDigits ts)
  simp only [splitAtLastDot_append _ _ hG]
  rw [if_neg (by simp)]
  have hT : ∀ c ∈ natDigits ts, (c == '.') = false :=
    fun c hc => digit_beq_dot (natDigits_digits ts c hc)
  simp only [splitAtLastDot_append _ _ hT]
  rw [if_neg (by
    push_neg
    refine ⟨natDigits_ne_nil ts, ?_⟩
    intro hfalse
    have : allDigits (natDigits ts) = true := by
      unfold allDigits
      rw [List.all_eq_true]
      exact natDigits_digits ts
    rw [this] at hfalse
    exact absurd hfalse (by simp))]
  rw [digitsVal_natDigits]
  by_cases hage : maxAge < now - ts
  · rw [if_pos hage, if_pos hage]
  · rw [if_neg hage, if_neg hage]
    simp only [decStr_encStr]
    rfl

end TounfiteSouk

namespace TounfiteSouk

/-- Reading back the written index of a set. -/
theorem getD_set_self (l : List Char) (i : Nat) (c d : Char)
    (h : i < l.length) : (l.set i c).getD i d = c := by
  induction l generalizing i with
  | nil => simp at h
  | cons a as ih =>
      cases i with
      | zero => rfl
      | succ n =>
          rw [List.set_cons_succ]
          exact ih n (by simpa using h)

/-- Writing a genuinely different character changes the list. -/
theorem set_ne_self (l : List Char) (i : Nat) (c : Char) (h : i < l.length)
    (hne : l.getD i ' ' ≠ c) : l.set i c ≠ l := by
  intro he
  apply hne
  have hg := getD_set_self l i c ' ' h
  rw [he] at hg
  exact hg

/-- A character other than the dot compares false to it. -/
theorem beq_dot_false_of_ne {c : Char} (h : c ≠ '.') : (c == '.') = false := by
  cases hcb : c == '.' with
  | false => rfl
  | true => exact absurd (by simpa using hcb) h

/-- Altering any single byte of a genuine token makes redemption fail as
Invalid: wherever the alteration lands, the last-dot decomposition of the
altered token carries a signature that no longer matches its signed
bytes (by MAC injectivity when the signed region changed, by a length
mismatch when a dot was added or removed). -/
theorem loads_alter (secret salt email : String) (ts maxAge now : Nat)
    (t2 : List Char) (h : ByteAlter (dumps secret salt email ts) t2) :
    loads secret salt maxAge now t2 = .invalid := by
  obtain ⟨i, c, hi, hne, ht2⟩ := h
  obtain ⟨sp, hsp⟩ : ∃ sp, signedPart email ts = sp := ⟨_, rfl⟩
  obtain ⟨G, hG⟩ : ∃ G, mac secret salt sp = G := ⟨_, rfl⟩
  have htok : dumps secret salt email ts = sp ++ '.' :: G := by
    unfold dumps
    rw [hsp, hG]
  have hGd : ∀ x ∈ G, (x == '.') = false := by
    rw [← hG]
    exact mac_no_dot secret salt sp
  have hGlen : G.length = (encStr secret.toList).length +
      (encStr salt.toList).length + 7 * sp.length := by
    rw [← hG, mac_length]
  have hspE : sp = encStr email.toList ++ '.' :: natDigits ts := by
    rw [← hsp]
    rfl
  rw [htok] at hi hne ht2
  rw [List.length_append, List.length_cons] at hi
  rcases Nat.lt_trichotomy i sp.length with hlt | heq | hgt
  · have hset : (sp ++ '.' :: G).set i c = sp.set i c ++ '.' :: G := by
      rw [List.set_append, if_pos hlt]
    rw [hset] at ht2
    have hgd : (sp ++ '.' :: G).getD i ' ' = sp.getD i ' ' :=
      List.getD_append _ _ _ _ hlt
    rw [hgd] at hne
    rw [ht2]
    apply loads_invalid_of_sig _ _ _ _ _ _ hGd
    intro hEq
    exact absurd (mac_inj (hG.trans hEq)).symm (set_ne_self sp i c hlt hne)
  · subst heq
    have hgd : (sp ++ '.' :: G).getD sp.length ' ' = '.' := by
      rw [List.getD_append_right _ _ _ _ (le_refl _)]
      simp
    rw [hgd] at hne
    have hset : (sp ++ '.' :: G).set sp.length c = sp ++ c :: G := by
      rw [List.set_append, if_neg (by omega), Nat.sub_self, List.set_cons_zero]
    rw [hset] at ht2
    have ht2e : t2 = encStr email.toList ++ '.' :: (natDigits ts ++ c :: G) := by
      rw [ht2, hspE]
      simp [List.append_assoc]
    rw [ht2e]
    apply loads_invalid_of_sig
    · intro x hx
      rw [List.mem_append, List.mem_cons] at hx
      rcases hx with hx | hx | hx
      · exact digit_beq_dot (natDigits_digits ts x hx)
      · subst hx
        exact beq_dot_false_of_ne (fun hc => hne hc.symm)
      · exact hGd x hx
    · intro hEq
      have hlenEq := congrArg List.length hEq
      rw [List.length_append, List.length_cons, mac_length] at hlenEq
      have hsplen := congrArg List.length hspE
      rw [List.length_append, List.length_cons] at hsplen
      omega
  · obtain ⟨j, hjdef⟩ : ∃ j, i - sp.length = j + 1 :=
      ⟨i - sp.length - 1, by omega⟩
    have hjG : j < G.length := by omega
    have hset : (sp ++ '.' :: G).set i c = sp ++ '.' :: G.set j c := by
      rw [List.set_append, if_neg (by omega), hjdef, List.set_cons_succ]
    rw [hset] at ht2
    have hgd : (sp ++ '.' :: G).getD i ' ' = G.getD j ' ' := by
      rw [List.getD_append_right _ _ _ _ (by omega), hjdef]
      rfl
    rw [hgd] at hne
    by_cases hcdot : c = '.'
    · subst hcdot
      have hsetG : G.set j '.' = G.take j ++ '.' :: G.drop (j + 1) := by
        rw [List.set_eq_take_append_cons_drop, if_pos hjG]
      rw [hsetG] at ht2
      have ht2e : t2 = (sp ++ '.' :: G.take j) ++ '.' :: G.drop (j + 1) := by
        rw [ht2]
        simp [List.append_assoc]
      rw [ht2e]
      apply loads_invalid_of_sig
      · intro x hx
        exact hGd x (List.drop_subset _ _ hx)
      · intro hEq
        have hlenEq := congrArg List.length hEq
        have hmin : min j G.length = j := Nat.min_eq_left (le_of_lt hjG)
        rw [List.length_drop, mac_length, List.length_append, List.length_cons,
          List.length_take, hmin] at hlenEq
        omega
    · have hGset : ∀ x ∈ G.set j c, (x == '.') = false := by
        intro x hx
        rcases List.mem_or_eq_of_mem_set hx with hx | hx
        · exact hGd x hx
        · subst hx
          exact beq_dot_false_of_ne hcdot
      rw [ht2]
      apply loads_invalid_of_sig _ _ _ _ _ _ hGset
      intro hEq
      rw [hG] at hEq
      exact set_ne_self G j c hjG hne hEq

/-- C4: issuing a verification token and redeeming it within 24 hours
returns the embedded email; redeeming after the 24-hour max age fails
Expired; and redeeming any token obtained by altering one byte of a
genuine token fails Invalid (over the ideal MAC model of the
itsdangerous serializer). -/
theorem claim_C4 (secret email : String) (iss : Nat) :
    (∀ now, now - iss ≤ 86400 →
      redeemToken secret now (issueToken secret email iss) = .ok email)
    ∧ (∀ now, 86400 < now - iss →
      redeemToken secret now (issueToken secret email iss) = .expired)
    ∧ (∀ t2 now, ByteAlter (issueToken secret email iss) t2 →
      redeemToken secret now t2 = .invalid) := by
  refine ⟨?_, ?_, ?_⟩
  · intro now h
    unfold redeemToken issueToken
    rw [loads_dumps, if_neg (by omega)]
  · intro now h
    unfold redeemToken issueToken
    rw [loads_dumps, if_pos (by omega)]
  · intro t2 now h
    unfold issueToken at h
    unfold redeemToken
    exact loads_alter secret "email-verify" email iss (60 * 60 * 24) now t2 h

set_option maxRecDepth 8192 in
/-- Witness for C4 with the app's default secret: fresh redemption
succeeds, day-late redemption expires, and flipping the first byte of the
token invalidates it. -/
theorem claim_C4_witness :
    redeemToken "change_this_secret_in_prod" 100
        (issueToken "change_this_secret_in_prod" "a@b.c" 50) = .ok "a@b.c"
    ∧ redeemToken "change_this_secret_in_prod" 86451
        (issueToken "change_this_secret_in_prod" "a@b.c" 50) = .expired
    ∧ redeemToken "change_this_secret_in_prod" 100
        ((issueToken "change_this_secret_in_prod" "a@b.c" 50).set 0 'X')
      = .invalid := by
  have h := claim_C4 "change_this_secret_in_prod" "a@b.c" 50
  exact ⟨h.1 100 (by decide), h.2.1 86451 (by decide),
    h.2.2 _ 100 ⟨0, 'X', by decide, by decide, rfl⟩⟩

end TounfiteSouk
